import Mathlib

/-!
Verification of the dataset-documentation generator
(`tools/generate_dataset_docs.py`).

This file gives a shallow embedding of the algorithmic core of the script:
table-version resolution, nested-schema flattening, join-group wildcard
expansion, join-pair enumeration with its dedup key, field lookup, and the
join-statistics aggregation.  Each definition mirrors the Python source;
comments cite the source lines.  Python behaviour that raises an exception
(ZeroDivisionError, re.error, iterating `None`) is modelled with
`Option`/`Except`-style results.
-/

namespace DatasetDocs

/-! ### A small model of Python `re` for the patterns this script builds

The script only ever builds regexes by `fmt.replace("*", ".*")` over
configuration strings (lines 145, 233, 236) whose characters are letters,
digits, `_`, `:`, `.`, `+` and `*`.  In that fragment a pattern is a
sequence of atoms (a literal character or `.` = any character), each
optionally followed by a quantifier `*` or `+`.  A quantifier with no
preceding atom (for example a leading `+`) is a compile error in Python
(`re.error: nothing to repeat`); `compilePat` returns `none` for it.
`re.match` anchors at the start only, so matching a prefix succeeds. -/

inductive RAtom where
  | lit (c : Char)
  | anyChar
deriving DecidableEq

inductive RTok where
  | once (a : RAtom)
  | star (a : RAtom)
  | plus (a : RAtom)
deriving DecidableEq

def matchAtom : RAtom → Char → Bool
  | .lit c, d => c = d
  | .anyChar, _ => true

def mkAtom (c : Char) : RAtom :=
  if c = '.' then .anyChar else .lit c

/-- Compile a pattern string (as characters) to tokens; `none` models
`re.error` ("nothing to repeat") for a quantifier with no preceding atom. -/
def compilePat : List Char → Option (List RTok)
  | [] => some []
  | [c] =>
    if c = '*' || c = '+' then none
    else some [RTok.once (mkAtom c)]
  | c :: c2 :: rest =>
    if c = '*' || c = '+' then none
    else if c2 = '*' then (compilePat rest).map (fun ts => RTok.star (mkAtom c) :: ts)
    else if c2 = '+' then (compilePat rest).map (fun ts => RTok.plus (mkAtom c) :: ts)
    else (compilePat (c2 :: rest)).map (fun ts => RTok.once (mkAtom c) :: ts)

/-- Backtracking matcher for the token list, prefix semantics (`re.match`
succeeds as soon as the whole pattern is consumed).  The `fuel` parameter
only drives the recursion; `2 * |input| + |pattern| + 1` strictly bounds
the recursion depth, so `reMatch` below never hits the `fuel = 0` case. -/
def reMatchFuel : Nat → List RTok → List Char → Bool
  | 0, _, _ => false
  | _ + 1, [], _ => true
  | _ + 1, .once _ :: _, [] => false
  | fuel + 1, .once a :: ps, d :: ds => matchAtom a d && reMatchFuel fuel ps ds
  | fuel + 1, .star _ :: ps, [] => reMatchFuel fuel ps []
  | fuel + 1, .star a :: ps, d :: ds =>
    reMatchFuel fuel ps (d :: ds) || (matchAtom a d && reMatchFuel fuel (RTok.star a :: ps) ds)
  | _ + 1, .plus _ :: _, [] => false
  | fuel + 1, .plus a :: ps, d :: ds => matchAtom a d && reMatchFuel fuel (RTok.star a :: ps) ds

def reMatch (ps : List RTok) (ds : List Char) : Bool :=
  reMatchFuel (2 * ds.length + ps.length + 1) ps ds

/-- `fmt.replace("*", ".*")` (lines 145, 233, 236). -/
def starReplace : List Char → List Char
  | [] => []
  | c :: rest => if c = '*' then '.' :: '*' :: starReplace rest else c :: starReplace rest

/-- `re.match(fmt.replace("*", ".*"), s)` as a truthiness test; `none`
models the `re.error` exception during compilation. -/
def pyMatchFmt (fmt s : String) : Option Bool :=
  (compilePat (starReplace fmt.data)).map (fun ts => reMatch ts s.data)

/-! ### Version detection (lines 150-177)

The script applies `re.match("^(.+)_([0-9]+[0-9a-zA-Z]*)", table.name)`.
With Python's greedy `(.+)`, the base group is the longest non-empty
prefix that is followed by `_` and at least one digit; the version group
is then the maximal alphanumeric run after that underscore (greedy
`[0-9]+` then `[0-9a-zA-Z]*`).  `vSplitCore` returns the split for the
relaxed pattern `(.*)_([0-9]+...)` preferring the rightmost underscore;
`versionMatch` rejects an empty base, matching `(.+)`. -/

def vSplitCore : List Char → Option (List Char × List Char)
  | [] => none
  | c :: rest =>
    match vSplitCore rest with
    | some (b, v) => some (c :: b, v)
    | none =>
      if c = '_' then
        match rest with
        | d :: _ => if d.isDigit then some ([], rest.takeWhile Char.isAlphanum) else none
        | [] => none
      else none

def versionMatch (s : String) : Option (String × String) :=
  match vSplitCore s.data with
  | some (b, v) => if b.isEmpty then none else some (⟨b⟩, ⟨v⟩)
  | none => none

/-! ### Python-dict association lists

`latest_table_base`, `join_stats` and friends are Python dicts; we model
them as association lists where assignment replaces the first binding of
the key or appends a fresh one. -/

def dictSet {α : Type} : List (String × α) → String → α → List (String × α)
  | [], k, v => [(k, v)]
  | (k1, v1) :: rest, k, v =>
    if k1 = k then (k, v) :: rest else (k1, v1) :: dictSet rest k v

def dictGet {α : Type} : List (String × α) → String → Option α
  | [], _ => none
  | (k1, v1) :: rest, k => if k1 = k then some v1 else dictGet rest k

/-! ### The version-resolution pass (lines 150-177) -/

/-- Python string `<`: lexicographic comparison of code points (identical
to Lean's `String` order on these names, written out executably). -/
def pyStrLtChars : List Char → List Char → Bool
  | [], [] => false
  | [], _ :: _ => true
  | _ :: _, [] => false
  | a :: as, b :: bs =>
    if a.toNat < b.toNat then true
    else if b.toNat < a.toNat then false
    else pyStrLtChars as bs

def pyStrLt (a b : String) : Bool := pyStrLtChars a.data b.data

structure VState where
  latest : List (String × String)
  noVer : List String

/-- One iteration of the loop at lines 154-167 for a table name. -/
def versionStep (st : VState) (name : String) : VState :=
  match versionMatch name with
  | none => ⟨dictSet st.latest name name, name :: st.noVer⟩
  | some (base, _ver) =>
    match dictGet st.latest base with
    | none => ⟨dictSet st.latest base name, st.noVer⟩
    | some cur =>
      if pyStrLt cur name && !(st.noVer.contains base) then ⟨dictSet st.latest base name, st.noVer⟩
      else st

def runVersionPass (names : List String) : VState :=
  names.foldl versionStep ⟨[], []⟩

/-- `latest_tables` (lines 170-172) is the set of values of
`latest_table_base`. -/
def latestTables (names : List String) : List String :=
  (runVersionPass names).latest.map Prod.snd

/-- `table.old_version` after the marking loop at lines 174-177. -/
def oldVersionFlag (names : List String) (n : String) : Bool :=
  !(latestTables names).contains n

/-! ### Schema flattening (`add_fields`, lines 187-203)

A BigQuery schema entry is a JSON object with a mandatory `name`, the
optional `description`/`type`/`mode` strings (read with `.get(key, "")`)
and an optional nested `fields` list (an absent key behaves exactly like
an empty list, since the recursion over `[]` adds nothing). -/

inductive SField where
  | mk (name : String) (description : Option String) (type : Option String)
       (mode : Option String) (sub : List SField)

/-- The `Field` objects built by `add_fields` (line 192-198); the `table`
back-reference is dropped here, `find_field` below searches per table. -/
structure FieldE where
  name : String
  description : String
  type : String
  mode : String
deriving DecidableEq

/-- `add_fields(parent, fields)`: depth-first, declaration order, each
field emitted before its `fields` children, dot-qualified unless the
parent prefix is empty (lines 187-200). -/
def addFields : String → List SField → List FieldE
  | _, [] => []
  | parent, .mk fname desc ty mo sub :: rest =>
    let n := if parent = "" then fname else parent ++ "." ++ fname
    ⟨n, desc.getD "", ty.getD "", mo.getD ""⟩ ::
      (addFields n sub ++ addFields parent rest)

/-! ### Lemmas about the dict model -/

theorem dictGet_dictSet {α : Type} (m : List (String × α)) (k k' : String) (v : α) :
    dictGet (dictSet m k v) k' = if k' = k then some v else dictGet m k' := by
  induction m with
  | nil =>
    by_cases h : k' = k
    · simp [dictSet, dictGet, h]
    · have h2 : ¬ k = k' := fun hh => h (Eq.symm hh)
      simp [dictSet, dictGet, h, h2]
  | cons hd tl ih =>
    obtain ⟨k1, v1⟩ := hd
    by_cases h1 : k1 = k
    · subst h1
      by_cases h2 : k' = k1
      · simp [dictSet, dictGet, h2]
      · have h3 : ¬ k1 = k' := fun hh => h2 (Eq.symm hh)
        simp [dictSet, dictGet, h2, h3]
    · by_cases h2 : k1 = k'
      · subst h2
        simp [dictSet, dictGet, h1]
      · simp [dictSet, dictGet, h1, h2, ih]

theorem dictGet_mem_values {α : Type} (m : List (String × α)) (k : String) (v : α)
    (h : dictGet m k = some v) : v ∈ m.map Prod.snd := by
  induction m with
  | nil => simp [dictGet] at h
  | cons hd tl ih =>
    obtain ⟨k1, v1⟩ := hd
    by_cases h1 : k1 = k
    · simp [dictGet, h1] at h
      simp [h]
    · simp [dictGet, h1] at h
      simp [ih h]

/-! ### Invariant for claim C5: a no-version table keeps itself as latest -/

def keepsSelf (n : String) (st : VState) : Prop :=
  dictGet st.latest n = some n ∧ n ∈ st.noVer

theorem keepsSelf_step (n : String) (st : VState) (m : String) (h : keepsSelf n st) :
    keepsSelf n (versionStep st m) := by
  obtain ⟨h1, h2⟩ := h
  rcases hvm : versionMatch m with _ | ⟨base, ver⟩
  · constructor
    · simp only [versionStep, hvm]
      rw [dictGet_dictSet]
      by_cases hnm : n = m
      · simp [hnm]
      · simp [hnm, h1]
    · simp only [versionStep, hvm]
      exact List.mem_cons_of_mem _ h2
  · rcases hg : dictGet st.latest base with _ | cur
    · have hbn : ¬ n = base := by
        intro he
        rw [← he, h1] at hg
        cases hg
      constructor
      · simp only [versionStep, hvm, hg]
        rw [dictGet_dictSet]
        simp [hbn, h1]
      · simp only [versionStep, hvm, hg]
        exact h2
    · cases hcond : pyStrLt cur m && !(st.noVer.contains base) with
      | false =>
        constructor
        · simp only [versionStep, hvm, hg, hcond]
          exact h1
        · simp only [versionStep, hvm, hg, hcond]
          exact h2
      | true =>
        have hnc : st.noVer.contains base = false := by
          cases hc : st.noVer.contains base with
          | false => rfl
          | true => rw [hc] at hcond; simp at hcond
        have hbn : ¬ n = base := by
          intro he
          rw [← he] at hnc
          have hm : List.elem n st.noVer = true := List.elem_eq_true_of_mem h2
          simp only [List.contains] at hnc
          rw [hm] at hnc
          cases hnc
        constructor
        · simp only [versionStep, hvm, hg, hcond]
          rw [if_pos trivial]
          rw [dictGet_dictSet]
          simp [hbn, h1]
        · simp only [versionStep, hvm, hg, hcond]
          rw [if_pos trivial]
          exact h2

theorem keepsSelf_establish (n : String) (st : VState) (h : versionMatch n = none) :
    keepsSelf n (versionStep st n) := by
  unfold versionStep
  rw [h]
  refine ⟨?_, List.mem_cons_self _ _⟩
  rw [dictGet_dictSet]
  simp

theorem keepsSelf_foldl (n : String) (l : List String) (st : VState) (h : keepsSelf n st) :
    keepsSelf n (l.foldl versionStep st) := by
  induction l generalizing st with
  | nil => exact h
  | cons x xs ih => exact ih _ (keepsSelf_step n st x h)

/-! ### Small permutation helpers (used for claim C3) -/

theorem perm_two {α : Type} {x y b c : α} (h : [x, y].Perm [b, c]) :
    (x = b ∧ y = c) ∨ (x = c ∧ y = b) := by
  have hx : x = b ∨ x = c := by
    have := h.subset (List.mem_cons_self x [y])
    simpa using this
  cases hx with
  | inl hb =>
    subst hb
    have h2 : [y].Perm [c] := h.cons_inv
    exact Or.inl ⟨rfl, by simpa using List.perm_singleton.mp h2⟩
  | inr hc =>
    subst hc
    have h2 : [y].Perm [b] := (h.trans (List.Perm.swap x b [])).cons_inv
    exact Or.inr ⟨rfl, by simpa using List.perm_singleton.mp h2⟩

theorem perm_three {α : Type} {l : List α} {a b c : α} (h : l.Perm [a, b, c]) :
    l = [a, b, c] ∨ l = [a, c, b] ∨ l = [b, a, c] ∨ l = [b, c, a] ∨
    l = [c, a, b] ∨ l = [c, b, a] := by
  have hlen := h.length_eq
  rcases l with _ | ⟨x, _ | ⟨y, _ | ⟨z, _ | ⟨w, tl⟩⟩⟩⟩ <;> simp at hlen
  have hx : x = a ∨ x = b ∨ x = c := by
    have := h.subset (List.mem_cons_self x [y, z])
    simpa using this
  rcases hx with hxa | hxb | hxc
  · subst hxa
    rcases perm_two h.cons_inv with ⟨hy, hz⟩ | ⟨hy, hz⟩
    · subst hy; subst hz; exact Or.inl rfl
    · subst hy; subst hz; exact Or.inr (Or.inl rfl)
  · subst hxb
    have h2 := (h.trans (List.Perm.swap x a [c])).cons_inv
    rcases perm_two h2 with ⟨hy, hz⟩ | ⟨hy, hz⟩
    · subst hy; subst hz; exact Or.inr (Or.inr (Or.inl rfl))
    · subst hy; subst hz; exact Or.inr (Or.inr (Or.inr (Or.inl rfl)))
  · subst hxc
    have hstep : ([a, b, x] : List α).Perm [x, a, b] :=
      (List.Perm.cons a (List.Perm.swap x b [])).trans (List.Perm.swap x a [b])
    have h2 := (h.trans hstep).cons_inv
    rcases perm_two h2 with ⟨hy, hz⟩ | ⟨hy, hz⟩
    · subst hy; subst hz; exact Or.inr (Or.inr (Or.inr (Or.inr (Or.inl rfl))))
    · subst hy; subst hz; exact Or.inr (Or.inr (Or.inr (Or.inr (Or.inr rfl))))

/-! ### Claims C3, C4, C5 -/

/-- C4 counterexample: the version regex `^(.+)_([0-9]+[0-9a-zA-Z]*)`
requires the version token to start with a digit, so `foo_bar_v2` does
not split into base `foo_bar` and version `v2` — it does not match at
all. -/
theorem c4_counterexample : versionMatch "foo_bar_v2" ≠ some ("foo_bar", "v2") := by
  decide

/-- C4 (amended): the pattern splits a name into "base, underscore,
version token (digits optionally followed by alphanumerics)", where the
token must start with a digit: `foo_bar_v2` does not match (it stays its
own base), while `foo_bar_2` gives base `foo_bar`/version `2` and
`foo_bar_2c` gives base `foo_bar`/version `2c`. -/
theorem c4_version_pattern :
    versionMatch "foo_bar_v2" = none ∧
    versionMatch "foo_bar_2" = some ("foo_bar", "2") ∧
    versionMatch "foo_bar_2c" = some ("foo_bar", "2c") := by
  decide

/-- C3: in the family `{a_1, a_2, a_10}` the lexicographically greatest
full name `a_2` (string comparison, not numeric) is kept as latest and
the other two are marked old, for every processing order. -/
theorem c3_version_lex_latest (l : List String) (h : l.Perm ["a_1", "a_2", "a_10"]) :
    oldVersionFlag l "a_2" = false ∧ oldVersionFlag l "a_1" = true ∧
    oldVersionFlag l "a_10" = true := by
  rcases perm_three h with h1 | h1 | h1 | h1 | h1 | h1 <;> subst h1 <;> exact ⟨by decide, by decide, by decide⟩

/-- C3 witness at the identity order. -/
theorem c3_version_lex_latest_witness :
    oldVersionFlag ["a_1", "a_2", "a_10"] "a_2" = false ∧
    oldVersionFlag ["a_1", "a_2", "a_10"] "a_1" = true ∧
    oldVersionFlag ["a_1", "a_2", "a_10"] "a_10" = true :=
  c3_version_lex_latest ["a_1", "a_2", "a_10"] (List.Perm.refl _)

/-- C5: a discovered table whose name does not match the version pattern
is never marked `old_version`, whatever other names occur and in
whatever order: the no-match branch pins `latest_table_base[name] = name`
and records the name in `no_version_tables`, which blocks every later
overwrite. -/
theorem c5_no_version_never_old (names : List String) (n : String)
    (h1 : n ∈ names) (h2 : versionMatch n = none) :
    oldVersionFlag names n = false := by
  obtain ⟨s, t, rfl⟩ := List.append_of_mem h1
  have hg : keepsSelf n (runVersionPass (s ++ n :: t)) := by
    unfold runVersionPass
    rw [List.foldl_append, List.foldl_cons]
    exact keepsSelf_foldl n t _ (keepsSelf_establish n _ h2)
  have hv : n ∈ (runVersionPass (s ++ n :: t)).latest.map Prod.snd :=
    dictGet_mem_values _ _ _ hg.1
  unfold oldVersionFlag latestTables
  have hc : ((runVersionPass (s ++ n :: t)).latest.map Prod.snd).contains n = true :=
    List.elem_eq_true_of_mem hv
  rw [hc]
  rfl

/-- C5 witness: `b` with versioned sibling `b_1` is never old. -/
theorem c5_no_version_never_old_witness :
    ("b" ∈ (["b_1", "b"] : List String)) ∧ versionMatch "b" = none ∧
    oldVersionFlag ["b_1", "b"] "b" = false :=
  ⟨by decide, by decide, c5_no_version_never_old ["b_1", "b"] "b" (by decide) (by decide)⟩

/-- C7: the nested schema `[{a, fields:[{b},{c}]}]` flattens to exactly
the ordered sequence of dot-qualified names `[a, a.b, a.c]`: depth-first,
declaration order, each parent emitted before its children. -/
theorem c7_flatten_order :
    (addFields "" [.mk "a" none none none [.mk "b" none none none [], .mk "c" none none none []]]).map FieldE.name = ["a", "a.b", "a.c"] := by
  simp [addFields]

/-! ### Discovered tables and wildcard expansion (lines 221-242)

For the expansion loop a table contributes its full name, its
`old_version` flag and its flattened field names.  The loop pops a
wildcard entry and inserts its matches in place, then continues after
them, which is exactly a flat-map over the original entries.  A `none`
result models the `re.error` exception aborting the run (a quantifier
with nothing to repeat, e.g. a leading `+` in the table pattern). -/

structure TableE where
  name : String
  old_version : Bool
  fields : List String

/-- The inner field loop (lines 235-237): collect `table|column` for
every field whose name prefix-matches the column pattern. -/
def matchFields (cf tname : String) : List String → Option (List String)
  | [] => some []
  | f :: rest =>
    match pyMatchFmt cf f with
    | none => none
    | some b =>
      match matchFields cf tname rest with
      | none => none
      | some ms => some (if b then (tname ++ "|" ++ f) :: ms else ms)

/-- The table scan (lines 231-237): `re.match` runs on every table name
(so a bad pattern raises even for old tables), old-version tables and
non-matching tables are skipped, matching tables contribute their
matching fields in order. -/
def matchTables (tf cf : String) : List TableE → Option (List String)
  | [] => some []
  | t :: rest =>
    match pyMatchFmt tf t.name with
    | none => none
    | some mt =>
      if !mt || t.old_version then matchTables tf cf rest
      else
        match matchFields cf t.name t.fields with
        | none => none
        | some ms =>
          match matchTables tf cf rest with
          | none => none
          | some ms2 => some (ms ++ ms2)

/-- Split a join reference at its `|` (the `split("|")` of lines 228 and
253-254; config entries contain exactly one `|`). -/
def splitBar (s : String) : String × String :=
  (⟨s.data.takeWhile (fun c => !(c = '|'))⟩, ⟨(s.data.dropWhile (fun c => !(c = '|'))).drop 1⟩)

/-- The in-place expansion loop (lines 222-242): entries without `*` are
kept, each wildcard entry is replaced by its matches, preserving the
surrounding order (the index `i` skips past the inserted matches). -/
def expandJoinGroup (tables : List TableE) : List String → Option (List String)
  | [] => some []
  | e :: rest =>
    if e.data.contains '*' then
      match matchTables (splitBar e).1 (splitBar e).2 tables with
      | none => none
      | some ms =>
        match expandJoinGroup tables rest with
        | none => none
        | some rs => some (ms ++ rs)
    else
      match expandJoinGroup tables rest with
      | none => none
      | some rs => some (e :: rs)

/-- The tables of the C6 test scene: `x` with `col1`, `col2` and `y`
with `col1`, none old. -/
def c6Tables : List TableE :=
  [⟨"x", false, ["col1", "col2"]⟩, ⟨"y", false, ["col1"]⟩]

/-- C6 counterexample: for fields `{x.col1, x.col2, y.col1}` the pattern
`x.*|col*` does NOT expand to `[x|col1, x|col2]` — the literal `.` in
the table pattern is a regex metacharacter requiring one extra
character, so no table named exactly `x` matches and the entry expands
to nothing. -/
theorem c6_counterexample :
    expandJoinGroup c6Tables ["x.*|col*"] ≠ some ["x|col1", "x|col2"] := by
  decide

/-- C6 (amended): the wildcard entry is turned into a prefix regex by
replacing `*` with `.*`, in which a literal `.` matches any single
character: `x.*|col*` therefore matches no table named exactly `x` and
expands to `[]`, while `x*|col*` expands to exactly `[x|col1, x|col2]`;
expansion replaces the entry in place preserving surrounding order and
scans only non-old-version tables. -/
theorem c6_wildcard_expansion :
    expandJoinGroup c6Tables ["x.*|col*"] = some [] ∧
    expandJoinGroup c6Tables ["x*|col*"] = some ["x|col1", "x|col2"] ∧
    expandJoinGroup c6Tables ["a|b", "x*|col*", "c|d"] = some ["a|b", "x|col1", "x|col2", "c|d"] ∧
    expandJoinGroup (c6Tables ++ [⟨"xz", true, ["col9"]⟩]) ["x*|col*"] = some ["x|col1", "x|col2"] := by
  decide

/-- C8 counterexample: a join-group entry with both the required marker
`+` and a wildcard `*` is NOT expanded like other wildcard entries: the
pattern `+x*` compiles to the regex `+x.*`, whose leading `+` has
nothing to repeat, so the expansion step fails (Python `re.error`)
instead of expanding the entry. -/
theorem c8_counterexample :
    expandJoinGroup c6Tables ["+x*|col*"] = none := by
  decide

/-- C8 (amended): a `+`-marked entry is only valid if it stays literal:
expansion aborts with a regex error on a `+`-marked wildcard entry,
whereas a literal `+`-marked entry passes through expansion untouched
(it contains no `*`, so the expansion loop skips it). -/
theorem c8_plus_wildcard_fails :
    expandJoinGroup c6Tables ["+x*|col*"] = none ∧
    expandJoinGroup c6Tables ["+x|col1"] = some ["+x|col1"] := by
  decide

/-! ### Join-pair enumeration (lines 244-263)

For each group the script loops over all index pairs `(i, j)` with
`j ≠ i` (row-major), keeps a pair only if a side still carries the `+`
marker, strips the marker, and skips the pair if its key — the plain
concatenation `first_table + first_column + second_table + second_column`
— was seen before (the global `join_done` set) or if both sides are the
same table and column. -/

def lstripPlus (s : String) : String := ⟨s.data.dropWhile (fun c => c = '+')⟩

def startsWithPlus (s : String) : Bool :=
  match s.data with
  | c :: _ => c = '+'
  | [] => false

def pairIndices (n : Nat) : List (Nat × Nat) :=
  (List.range n).foldr
    (fun i acc => ((List.range n).filterMap (fun j => if j = i then none else some (i, j))) ++ acc)
    []

/-- One iteration of the inner loop body (lines 249-263), threading the
`join_done` set and the list of pairs actually processed. -/
def joinPairStep (group : List String) (acc : List String × List ((String × String) × (String × String)))
    (ij : Nat × Nat) : List String × List ((String × String) × (String × String)) :=
  let gi := group.getD ij.1 ""
  let gj := group.getD ij.2 ""
  let ft0 := (splitBar gi).1
  let fc := (splitBar gi).2
  let st0 := (splitBar gj).1
  let sc := (splitBar gj).2
  if !startsWithPlus ft0 && !startsWithPlus st0 then acc
  else
    let ft := lstripPlus ft0
    let st2 := lstripPlus st0
    let key := ft ++ fc ++ st2 ++ sc
    if acc.1.contains key || (ft == st2 && fc == sc) then acc
    else (key :: acc.1, acc.2 ++ [((ft, fc), (st2, sc))])

/-- The enumeration for one join group (lines 247-263), starting from
the current global `join_done` contents. -/
def enumerateJoins (done0 : List String) (group : List String) :
    List String × List ((String × String) × (String × String)) :=
  (pairIndices group.length).foldl (joinPairStep group) (done0, [])

/-- C1 counterexample: the group `[+A|c1, +B|c2, +C|c3]` produces 6
processed pairs, not 3 — the dedup key concatenates the sides in order,
so a pair and its mirror have different keys and both are processed. -/
theorem c1_counterexample :
    (enumerateJoins [] ["+A|c1", "+B|c2", "+C|c3"]).2.length = 6 ∧
    (enumerateJoins [] ["+A|c1", "+B|c2", "+C|c3"]).2.length ≠ 3 := by
  decide

/-- C1 (amended): the key is order-dependent, so mirror pairs are NOT
deduplicated: `[+A|c1, +B|c2, +C|c3]` produces all 6 ordered pairs, each
once.  The key only suppresses an exact repeat of the same ordered pair
(second conjunct: a duplicated entry), and same-table-same-column
self-pairs are excluded. -/
theorem c1_pair_enumeration :
    (enumerateJoins [] ["+A|c1", "+B|c2", "+C|c3"]).2 =
      [(("A", "c1"), ("B", "c2")), (("A", "c1"), ("C", "c3")),
       (("B", "c2"), ("A", "c1")), (("B", "c2"), ("C", "c3")),
       (("C", "c3"), ("A", "c1")), (("C", "c3"), ("B", "c2"))] ∧
    (enumerateJoins [] ["+A|c1", "+A|c1", "+B|c2"]).2 =
      [(("A", "c1"), ("B", "c2")), (("B", "c2"), ("A", "c1"))] := by
  decide

/-! ### Join statistics (lines 297-322)

Each result row carries `cnt` (rows of the "from" table in the bucket)
and `second_cnt` (rows that found a match).  The loop accumulates
`total_rows` and `joined_rows`, stores one `JoinStat` per bucket (keyed
`""`/`"all"` when ungrouped, by the `grouped` value otherwise) with
`percent = second_cnt / cnt`, and finally sets
`join.percent = joined_rows / total_rows` and
`join.num_rows = joined_rows`.  Python's true division of integers
raises `ZeroDivisionError` on a zero denominator; `pyDiv` returns `none`
there, and the failure aborts the computation. -/

structure QRow where
  cnt : Nat
  second_cnt : Nat
  grouped : String
  sample_value : List String
deriving DecidableEq

structure JoinStatE where
  percent : ℚ
  num_rows : Nat
  key : String
  sample_value : List String
deriving DecidableEq

structure JoinAgg where
  join_stats : List (String × JoinStatE)
  percent : ℚ
  num_rows : Nat
deriving DecidableEq

def pyDiv (a b : Nat) : Option ℚ := if b = 0 then none else some ((a : ℚ) / (b : ℚ))

/-- The result loop (lines 312-320). -/
def joinRowsLoop (gb : Bool) (total joined : Nat) (stats : List (String × JoinStatE)) :
    List QRow → Option (Nat × Nat × List (String × JoinStatE))
  | [] => some (total, joined, stats)
  | r :: rest =>
    match pyDiv r.second_cnt r.cnt with
    | none => none
    | some p =>
      let js : JoinStatE := ⟨p, r.second_cnt, if gb then r.grouped else "all", r.sample_value⟩
      joinRowsLoop gb (total + r.cnt) (joined + r.second_cnt)
        (dictSet stats (if gb then r.grouped else "") js) rest

/-- The whole statistics computation for one join (lines 298-322):
run the loop, then `join.percent = joined_rows / total_rows` and
`join.num_rows = joined_rows`. -/
def computeJoin (gb : Bool) (rows : List QRow) : Option JoinAgg :=
  match joinRowsLoop gb 0 0 [] rows with
  | none => none
  | some (total, joined, stats) =>
    match pyDiv joined total with
    | none => none
    | some p => some ⟨stats, p, joined⟩

theorem joinRowsLoop_sum (gb : Bool) (rows : List QRow)
    (hc : ∀ r ∈ rows, r.cnt ≠ 0) :
    ∀ (total joined : Nat) (stats : List (String × JoinStatE)),
      ∃ stats2, joinRowsLoop gb total joined stats rows =
        some (total + (rows.map QRow.cnt).sum, joined + (rows.map QRow.second_cnt).sum, stats2) := by
  induction rows with
  | nil =>
    intro total joined stats
    exact ⟨stats, by simp [joinRowsLoop]⟩
  | cons r rest ih =>
    intro total joined stats
    have hr : r.cnt ≠ 0 := hc r (List.mem_cons_self _ _)
    have hrest : ∀ x ∈ rest, x.cnt ≠ 0 := fun x hx => hc x (List.mem_cons_of_mem _ hx)
    obtain ⟨s2, hs2⟩ := ih hrest (total + r.cnt) (joined + r.second_cnt)
      (dictSet stats (if gb then r.grouped else "")
        ⟨(r.second_cnt : ℚ) / (r.cnt : ℚ), r.second_cnt, if gb then r.grouped else "all", r.sample_value⟩)
    refine ⟨s2, ?_⟩
    simp only [joinRowsLoop, pyDiv, if_neg hr]
    rw [hs2]
    simp [Nat.add_assoc]

/-- C2: the overall percent is the ratio of summed matched counts to
summed total counts (and `num_rows` is the summed matched count), never
the arithmetic mean of the per-bucket percentages; concretely, buckets
`(total=10, matched=5)` and `(total=20, matched=0)` give `5/30`, not
`(0.5 + 0.0)/2 = 0.25`. -/
theorem c2_percent_sum_not_mean :
    (∀ (gb : Bool) (rows : List QRow), rows ≠ [] → (∀ r ∈ rows, r.cnt ≠ 0) →
      ∃ agg, computeJoin gb rows = some agg ∧
        agg.percent = ((rows.map QRow.second_cnt).sum : ℚ) / ((rows.map QRow.cnt).sum : ℚ) ∧
        agg.num_rows = (rows.map QRow.second_cnt).sum) ∧
    (∃ agg, computeJoin true [⟨10, 5, "g1", []⟩, ⟨20, 0, "g2", []⟩] = some agg ∧
      agg.percent = 5 / 30 ∧ agg.num_rows = 5 ∧ agg.percent ≠ (5 / 10 + 0 / 20) / 2) := by
  have hgen : ∀ (gb : Bool) (rows : List QRow), rows ≠ [] → (∀ r ∈ rows, r.cnt ≠ 0) →
      ∃ agg, computeJoin gb rows = some agg ∧
        agg.percent = ((rows.map QRow.second_cnt).sum : ℚ) / ((rows.map QRow.cnt).sum : ℚ) ∧
        agg.num_rows = (rows.map QRow.second_cnt).sum := by
    intro gb rows hne hc
    obtain ⟨s2, hs⟩ := joinRowsLoop_sum gb rows hc 0 0 []
    have hsum : (rows.map QRow.cnt).sum ≠ 0 := by
      cases rows with
      | nil => exact absurd rfl hne
      | cons r rest =>
        have hr : r.cnt ≠ 0 := hc r (List.mem_cons_self _ _)
        simp only [List.map_cons, List.sum_cons]
        omega
    refine ⟨⟨s2, ((rows.map QRow.second_cnt).sum : ℚ) / ((rows.map QRow.cnt).sum : ℚ),
      (rows.map QRow.second_cnt).sum⟩, ?_, rfl, rfl⟩
    simp only [computeJoin, hs, Nat.zero_add, pyDiv, if_neg hsum]
  refine ⟨hgen, ?_⟩
  obtain ⟨agg, ha, hp, hn⟩ := hgen true [⟨10, 5, "g1", []⟩, ⟨20, 0, "g2", []⟩]
    (by decide) (by decide)
  refine ⟨agg, ha, ?_, ?_, ?_⟩
  · rw [hp]; norm_num
  · rw [hn]; decide
  · rw [hp]; norm_num

/-- C2 witness: the general statement applied at the two concrete
buckets. -/
theorem c2_percent_sum_not_mean_witness :
    ∃ agg, computeJoin true [⟨10, 5, "g1", []⟩, ⟨20, 0, "g2", []⟩] = some agg ∧
      agg.percent = ((([⟨10, 5, "g1", []⟩, ⟨20, 0, "g2", []⟩] : List QRow).map QRow.second_cnt).sum : ℚ) /
        ((([⟨10, 5, "g1", []⟩, ⟨20, 0, "g2", []⟩] : List QRow).map QRow.cnt).sum : ℚ) ∧
      agg.num_rows = (([⟨10, 5, "g1", []⟩, ⟨20, 0, "g2", []⟩] : List QRow).map QRow.second_cnt).sum :=
  c2_percent_sum_not_mean.1 true [⟨10, 5, "g1", []⟩, ⟨20, 0, "g2", []⟩]
    (by decide) (by decide)

/-- C9: when the "from" table contributes no rows at all the division
`joined_rows / total_rows` (or already the per-bucket
`second_cnt / cnt`) divides by zero with no guard, so the computation
fails instead of producing 0% or NaN. -/
theorem c9_zero_rows_fails (gb : Bool) (rows : List QRow)
    (h : (rows.map QRow.cnt).sum = 0) : computeJoin gb rows = none := by
  cases rows with
  | nil => simp [computeJoin, joinRowsLoop, pyDiv]
  | cons r rest =>
    have hr : r.cnt = 0 := by
      simp only [List.map_cons, List.sum_cons] at h
      omega
    simp [computeJoin, joinRowsLoop, pyDiv, hr]

/-- C9 witness: the ungrouped query over an empty "from" table returns
one row with `cnt = 0`, and the run fails. -/
theorem c9_zero_rows_fails_witness :
    (([⟨0, 0, "", []⟩] : List QRow).map QRow.cnt).sum = 0 ∧
    computeJoin false [⟨0, 0, "", []⟩] = none :=
  ⟨by decide, c9_zero_rows_fails false [⟨0, 0, "", []⟩] (by decide)⟩

/-! ### `find_field` and the per-pair field resolution (lines 112-119,
179-209, 265-268)

A discovered table starts with `fields = None` (the class default) and
the loading loop at lines 179-209 skips old-version tables with
`continue`, so their `fields` stay `None`.  `find_field` iterates
`t.fields` for every table whose name matches; on `None` Python raises
`TypeError: 'NoneType' object is not iterable` before `find_field` can
return.  The caller at lines 265-268 raises its own
`TypeError("fields not found: ...")` only when both lookups return
normally and one is `None`. -/

structure TableF where
  name : String
  fields : Option (List FieldE)
  old_version : Bool

inductive FindResult where
  | found (f : FieldE)
  | notFound
  | iterNoneError
deriving DecidableEq

/-- `find_field(table_name, column)` (lines 112-119); `iterNoneError`
models the `TypeError` raised by `for f in None`. -/
def find_field (tables : List TableF) (tname col : String) : FindResult :=
  match tables with
  | [] => .notFound
  | t :: rest =>
    if t.name = tname then
      match t.fields with
      | none => .iterNoneError
      | some fs =>
        match fs.find? (fun f => f.name == col) with
        | some f => .found f
        | none => find_field rest tname col
    else find_field rest tname col

/-- The schema-loading step of the loop at lines 179-203 for one table:
old tables are skipped (`continue`, line 183), others get their
flattened fields (`schemas` stands for the warehouse `show` response,
keyed by table name). -/
def loadFields (schemas : List (String × List SField)) (t : TableF) : TableF :=
  if t.old_version then t
  else { t with fields := some (addFields "" ((dictGet schemas t.name).getD [])) }

inductive JoinErr where
  | iterTypeError
  | fieldsNotFound
deriving DecidableEq

/-- The caller's resolution of both sides of a pair (lines 265-268):
`find_field` runs for the "from" side first, then the "to" side; an
iteration `TypeError` aborts at once, otherwise a missing field raises
`TypeError("fields not found: ...")`. -/
def resolvePair (tables : List TableF) (ft fc st2 sc : String) :
    Except JoinErr (FieldE × FieldE) :=
  match find_field tables ft fc with
  | .iterNoneError => .error .iterTypeError
  | r1 =>
    match find_field tables st2 sc with
    | .iterNoneError => .error .iterTypeError
    | r2 =>
      match r1, r2 with
      | .found a, .found b => .ok (a, b)
      | _, _ => .error .fieldsNotFound

theorem loadFields_name (schemas : List (String × List SField)) (t : TableF) :
    (loadFields schemas t).name = t.name := by
  unfold loadFields
  by_cases h : t.old_version <;> simp [h]

theorem loadFields_old (schemas : List (String × List SField)) (t : TableF)
    (h : t.old_version = true) : loadFields schemas t = t := by
  simp [loadFields, h]

/-- C10: when the first discovered table named `tname` is old-version —
so the loading phase leaves its `fields` at the `None` default — a
literal join reference to it makes `find_field` fail by iterating
`None` (not by returning the "not found" result), and the pair
resolution therefore aborts with the iteration `TypeError`, not with the
`fields not found` error. -/
theorem c10_old_table_lookup_type_error (schemas : List (String × List SField))
    (pre post : List TableF) (t : TableF) (tname col st2 sc : String)
    (hpre : ∀ u ∈ pre, u.name ≠ tname) (hname : t.name = tname)
    (hold : t.old_version = true) (hfields : t.fields = none) :
    find_field ((pre ++ t :: post).map (loadFields schemas)) tname col = .iterNoneError ∧
    find_field ((pre ++ t :: post).map (loadFields schemas)) tname col ≠ .notFound ∧
    resolvePair ((pre ++ t :: post).map (loadFields schemas)) tname col st2 sc = .error .iterTypeError ∧
    resolvePair ((pre ++ t :: post).map (loadFields schemas)) tname col st2 sc ≠ .error .fieldsNotFound := by
  have hmain : find_field ((pre ++ t :: post).map (loadFields schemas)) tname col = .iterNoneError := by
    induction pre with
    | nil =>
      simp only [List.nil_append, List.map_cons]
      rw [loadFields_old schemas t hold]
      unfold find_field
      rw [if_pos hname, hfields]
    | cons u us ih =>
      have hu : u.name ≠ tname := hpre u (List.mem_cons_self _ _)
      have hus : ∀ w ∈ us, w.name ≠ tname := fun w hw => hpre w (List.mem_cons_of_mem _ hw)
      simp only [List.cons_append, List.map_cons]
      unfold find_field
      rw [if_neg (by rw [loadFields_name]; exact hu)]
      exact ih hus
  refine ⟨hmain, by rw [hmain]; decide, ?_, ?_⟩
  · unfold resolvePair
    rw [hmain]
  · unfold resolvePair
    rw [hmain]
    exact fun h => JoinErr.noConfusion (Except.error.inj h)

/-- C10 witness: one old-version table `d.t_1` whose fields were never
loaded; the literal reference `d.t_1|c` hits the iteration error. -/
theorem c10_old_table_lookup_type_error_witness :
    find_field (([⟨"d.t_1", none, true⟩] : List TableF).map (loadFields []))
      "d.t_1" "c" = .iterNoneError ∧
    resolvePair (([⟨"d.t_1", none, true⟩] : List TableF).map (loadFields []))
      "d.t_1" "c" "d.t_1" "c" = .error .iterTypeError :=
  ⟨(c10_old_table_lookup_type_error [] [] [] ⟨"d.t_1", none, true⟩ "d.t_1" "c" "d.t_1" "c"
      (by intro u hu; cases hu) rfl rfl rfl).1,
   (c10_old_table_lookup_type_error [] [] [] ⟨"d.t_1", none, true⟩ "d.t_1" "c" "d.t_1" "c"
      (by intro u hu; cases hu) rfl rfl rfl).2.2.1⟩

end DatasetDocs
